import Mathlib

/-!
Verification development for the oto parser and schema generator
(package `parser` in `src/parser/example.go`, helpers in `src/render`).

The Go code is shallowly embedded: each Lean definition translates the
Go function of the same (or clearly related) name.  Go maps are modelled
as association lists with Go-map update semantics; `interface{}` values
decoded from JSON are modelled by the inductive `JsonVal`; Go panics and
fuel exhaustion of the (partial) recursive generators are modelled by the
error monad `Except GenErr`.
-/

namespace Oto

/-- JsonVal models a Go `interface{}` value produced by `json.Unmarshal`
or used as a field example: null, bool, number, string, array, object. -/
inductive JsonVal where
  | null : JsonVal
  | bool : Bool → JsonVal
  | num : Int → JsonVal
  | str : String → JsonVal
  | arr : List JsonVal → JsonVal
  | obj : List (String × JsonVal) → JsonVal

/-- Metadata models Go `map[string]interface{}`: an association list whose
keys are unique (Go map semantics are enforced by `metaSet`). -/
abbrev Metadata := List (String × JsonVal)

/-- Go map read `m[k]` (two-value form gives presence): first binding wins,
and `metaSet` keeps keys unique so there is at most one. -/
def metaLookup (m : Metadata) (k : String) : Option JsonVal :=
  match m with
  | [] => none
  | (k', v) :: rest => if k' == k then some v else metaLookup rest k

/-- Go map write `m[k] = v`: replace the binding if the key is present,
otherwise append it. -/
def metaSet (m : Metadata) (k : String) (v : JsonVal) : Metadata :=
  match m with
  | [] => [(k, v)]
  | (k', v') :: rest =>
    if k' == k then (k, v) :: rest else (k', v') :: metaSet rest k v

/-- Prefix test on character lists (computable in the kernel, unlike the
position-based `String.isPrefixOf`). -/
def isPrefixL : List Char → List Char → Bool
  | [], _ => true
  | _ :: _, [] => false
  | p :: ps, c :: cs => p == c && isPrefixL ps cs

/-- Go `strings.HasPrefix`. -/
def strIsPrefixOf (p s : String) : Bool := isPrefixL p.data s.data

/-- Splitting a character list on a non-empty separator, Go
`strings.Split` semantics.  The fuel is structural bookkeeping only: one
character is consumed per step, so `length + 1` always suffices. -/
def splitOnAuxC (sep : List Char) : Nat → List Char → List Char → List (List Char)
  | 0, rest, acc => [acc.reverse ++ rest]
  | Nat.succ _, [], acc => [acc.reverse]
  | Nat.succ n, c :: cs, acc =>
    if isPrefixL sep (c :: cs) then
      acc.reverse :: splitOnAuxC sep n ((c :: cs).drop sep.length) []
    else
      splitOnAuxC sep n cs (c :: acc)

/-- Go `strings.Split` on a non-empty separator. -/
def strSplitOn (s sep : String) : List String :=
  (splitOnAuxC sep.data (s.data.length + 1) s.data []).map String.mk

/-- The first n characters removed (`strings.TrimPrefix` drops the prefix
length; the prefixes used here are ASCII, so characters equal bytes). -/
def strDrop (s : String) (n : Nat) : String := String.mk (s.data.drop n)

/-- Go `unicode.IsSpace` on the ASCII whitespace characters (the comments
processed here contain no exotic Unicode spaces). -/
def isSpaceChar (c : Char) : Bool :=
  c == ' ' || c == '\t' || c == '\n' || c == '\r' ||
    c == (Char.ofNat 11) || c == (Char.ofNat 12)

/-- Go `strings.TrimSpace`. -/
def strTrim (s : String) : String :=
  String.mk (((s.data.dropWhile isSpaceChar).reverse.dropWhile isSpaceChar).reverse)

/-- FieldTypeMap from `src/parser/example.go` (map key/element descriptor). -/
structure FieldTypeMap where
  KeyType : String := ""
  KeyTypeJS : String := ""
  KeyTypeTS : String := ""
  KeyTypeSwift : String := ""
  ElementType : String := ""
  ElementTypeJS : String := ""
  ElementTypeTS : String := ""
  ElementTypeSwift : String := ""
  ElementIsMultiple : Bool := false

/-- FieldType from `src/parser/example.go`.  The Go field `Type` of struct
`Field` is spelled `type` here because `Type` is a Lean keyword.
`MultipleTimes []struct{}` is a list of units used only for its length. -/
structure FieldType where
  TypeID : String := ""
  TypeName : String := ""
  ObjectName : String := ""
  CleanObjectName : String := ""
  ObjectNameLowerCamel : String := ""
  ObjectNameLowerSnake : String := ""
  Multiple : Bool := false
  MultipleTimes : List Unit := []
  Package : String := ""
  IsObject : Bool := false
  JSType : String := ""
  TSType : String := ""
  SwiftType : String := ""
  IsMap : Bool := false
  Map : FieldTypeMap := {}

/-- ExVal models the `interface{}` values stored in the example map built
by `Definition.Example`: a JSON-decoded example value, the empty-struct
marker `struct{}{}`, a nested example map (Go `map[string]interface{}`),
or a `[]interface{}` wrapper. -/
inductive ExVal where
  | json : JsonVal → ExVal
  | unit : ExVal
  | obj : List (String × ExVal) → ExVal
  | arr : List ExVal → ExVal

/-- FieldTag from `src/parser/example.go`. -/
structure FieldTag where
  Value : String := ""
  Options : List String := []

/-- Field from `src/parser/example.go`. -/
structure Field where
  Name : String := ""
  NameLowerCamel : String := ""
  NameLowerSnake : String := ""
  type : FieldType := {}
  OmitEmpty : Bool := false
  Comment : String := ""
  Tag : String := ""
  ParsedTags : List (String × FieldTag) := []
  Example : ExVal := .json .null
  Metadata : Metadata := []

/-- Object from `src/parser/example.go`. -/
structure Object where
  TypeID : String := ""
  Name : String := ""
  NameLowerCamel : String := ""
  NameLowerSnake : String := ""
  Imported : Bool := false
  Fields : List Field := []
  Comment : String := ""
  Metadata : Metadata := []

/-- Method from `src/parser/example.go`. -/
structure Method where
  Name : String := ""
  NameLowerCamel : String := ""
  NameLowerSnake : String := ""
  InputObject : FieldType := {}
  OutputObject : FieldType := {}
  Comment : String := ""
  Metadata : Metadata := []

/-- Service from `src/parser/example.go`. -/
structure Service where
  Name : String := ""
  Methods : List Method := []
  Comment : String := ""
  Metadata : Metadata := []

/-- Definition from `src/parser/example.go` (the `Imports` map is carried
but never read by the functions verified here). -/
structure Definition where
  PackageName : String := ""
  Services : List Service := []
  Objects : List Object := []
  Imports : List (String × String) := []

/-- Embedding of `(d *Definition) Object(name)`: linear scan returning the
first object with the given name; `none` models the `ErrNotFound` sentinel
(the Go function returns no other error). -/
def Definition.findObject (d : Definition) (name : String) : Option Object :=
  d.Objects.find? (fun o => o.Name == name)

/-- GenErr models the failure modes of the generator embedding: a Go
`panic` (the only fatal mechanism the zod writers have - they return no
error values), or exhaustion of the fuel that bounds the partial
recursion of `writeZodEndpointSchemaObject` / `Definition.Example`. -/
inductive GenErr where
  | panicked : String → GenErr
  | outOfFuel : GenErr
deriving DecidableEq

/-- Go `v.(bool)` type assertion (single-value form): panics unless the
dynamic type is bool. -/
def boolAssert (v : JsonVal) : Except GenErr Bool :=
  match v with
  | .bool b => .ok b
  | _ => .error (.panicked "interface conversion: interface is not bool")

/-- Embedding of `removePackagePrefix`: if the variable contains a dot it
is replaced by `strings.TrimPrefix(filepath.Ext(variable), ".")`, i.e. the
text after the final dot; otherwise it is returned unchanged. -/
def removePackagePrefix (v : String) : String :=
  let parts := strSplitOn v "."
  if parts.length ≥ 2 then parts.getLastD "" else v

/-- Embedding of `getTypeNameForZod`: panics unless the field type starts
with "types.", otherwise rewrites that prefix to "ZodTypes.". -/
def getTypeNameForZod (fieldType : String) : Except GenErr String :=
  if strIsPrefixOf "types." fieldType then
    .ok ("ZodTypes." ++ strDrop fieldType 6)
  else
    .error (.panicked ("invalid field type: " ++ fieldType))

/-- Modelled from the spec: the `camelize_down` case-conversion helper
(`parser/camelize.go` is not among the provided sources).  The spec lists
it among the fixed case-conversion helpers; its behaviour is pinned by the
repository's TestCamelizeDown expectations: "CamelsAreGreat" to
"camelsAreGreat", "ID" to "id", "HTML" to "html", "PreviewHTML" to
"previewHTML".  The leading run of uppercase letters is lowercased; when
the run is longer than one and is followed by more text, its final letter
keeps its case. -/
def camelizeDown (s : String) : String :=
  let run := s.data.takeWhile Char.isUpper
  let rest := s.data.dropWhile Char.isUpper
  if run.length ≤ 1 ∨ rest.length = 0 then
    String.mk (run.map Char.toLower ++ rest)
  else
    String.mk ((run.dropLast.map Char.toLower) ++ run.drop (run.length - 1) ++ rest)

/-- Modelled from the spec: the `snake_down` case-conversion helper
(`parser/camelize.go` is not among the provided sources).  Lowercases the
name, inserting an underscore at each lower-to-upper boundary, e.g.
"GetGreetings" to "get_greetings". -/
def snakeDown (s : String) : String :=
  let step := fun (acc : List Char × Option Char) (c : Char) =>
    match acc with
    | (out, prev) =>
      let out :=
        if c.isUpper && (match prev with | some p => p.isLower | none => false) then
          out ++ ['_', c.toLower]
        else
          out ++ [c.toLower]
      (out, some c)
  String.mk (s.data.foldl step ([], none)).1

/-- Embedding of `writeNewLines`: appends `count` newline characters. -/
def writeNewLines : Nat → String → String
  | 0, b => b
  | n + 1, b => writeNewLines n (b ++ "\n")

/-- The loop `for i := 0; i < len(field.Type.MultipleTimes); i++` in
`writeZodFieldModifiers`, appending one ".array()" per iteration. -/
def writeArraySuffixes : Nat → String → String
  | 0, b => b
  | n + 1, b => writeArraySuffixes n (b ++ ".array()")

/-- The corresponding loop in `writeRecursiveType`, appending "[]". -/
def writeBracketSuffixes : Nat → String → String
  | 0, b => b
  | n + 1, b => writeBracketSuffixes n (b ++ "[]")

/-- Embedding of `writeZodFieldModifiers`: array suffixes (one per unit of
`MultipleTimes`, only when `Multiple` is set), then `.nullable()` when the
metadata flags it (Go asserts the metadata value to bool, panicking
otherwise), then `.optional()` likewise. -/
def writeZodFieldModifiers (field : Field) (builder : String) : Except GenErr String := do
  let b :=
    if field.type.Multiple then
      writeArraySuffixes field.type.MultipleTimes.length builder
    else builder
  let b ←
    match metaLookup field.Metadata "nullable" with
    | none => pure b
    | some v => do
      let nb ← boolAssert v
      pure (if nb then b ++ ".nullable()" else b)
  let b ←
    match metaLookup field.Metadata "optional" with
    | none => pure b
    | some v => do
      let ob ← boolAssert v
      pure (if ob then b ++ ".optional()" else b)
  pure b

/-- Embedding of `getRecursiveFields`: the fields whose object type, after
stripping package qualification, names the enclosing object. -/
def getRecursiveFields (objectFields : List Field) (objectName : String) : List Field :=
  objectFields.filter
    (fun f => f.type.IsObject && (removePackagePrefix f.type.CleanObjectName == objectName))

/-- Embedding of `getExtendedFields`: schema names of the metadata-flagged
extend fields, in field order. -/
def getExtendedFields (objectFields : List Field) : List String :=
  (objectFields.filter (fun f => (metaLookup f.Metadata "extend").isSome)).map
    (fun f => camelizeDown (removePackagePrefix f.type.CleanObjectName) ++ "Schema")

/-- Embedding of `getMergeString`: one chained ".merge(name)" per extended
field, in order. -/
def getMergeString (extendedFields : List String) : String :=
  extendedFields.foldl (fun acc f => acc ++ (".merge(" ++ f ++ ")")) ""

/-- Embedding of `writeZodObject`: a reference to the dependency object's
generated schema name. -/
def writeZodObject (field : Field) (builder : String) : String :=
  builder ++ (camelizeDown (removePackagePrefix field.type.CleanObjectName) ++ "Schema")

/-- Embedding of `(d *Definition) writeZodRecord`: a z.record over the key
vocabulary and either the element object's schema name or the element's
primitive vocabulary name, with one ".array()" if the element is multiple. -/
def writeZodRecord (d : Definition) (field : Field) (builder : String) : String :=
  let b := builder ++ "z.record(" ++ ("z." ++ field.type.Map.KeyTypeTS ++ "(), ")
  let b :=
    match d.findObject field.type.Map.ElementType with
    | some _ => b ++ (camelizeDown field.type.Map.ElementType ++ "Schema")
    | none => b ++ ("z." ++ field.type.Map.ElementTypeTS ++ "()")
  let b := if field.type.Map.ElementIsMultiple then b ++ ".array()" else b
  b ++ ")"

/-- Embedding of `writeZodEnum`: Go asserts the "options" metadata value to
`[]interface{}` (a panic when it is not an array), then renders each string
option as a quoted literal, in list order. -/
def writeZodEnum (field : Field) (builder : String) : Except GenErr String :=
  match metaLookup field.Metadata "options" with
  | some (.arr opts) =>
    let options := opts.filterMap
      (fun o => match o with | .str s => some ("\"" ++ s ++ "\"") | _ => none)
    .ok (builder ++ ("z.enum([" ++ String.intercalate ", " options ++ "])"))
  | _ => .error (.panicked "interface conversion: interface is not []interface")

/-- The Go condition `field.Metadata["options"] != nil`: present and not
JSON null (a decoded JSON null is a nil interface value in Go). -/
def optionsNotNil (field : Field) : Bool :=
  match metaLookup field.Metadata "options" with
  | some .null => false
  | some _ => true
  | none => false

/-- The per-field loop body of `(d *Definition) writeZodBaseObject`:
skips excluded, extended and self-referential fields, renders the field
body by the Go switch (object / map / enum / custom scalar via
`getTypeNameForZod` / primitive vocabulary), then the modifier suffixes.
The trailing `if` matching the self-referential name is kept from the
source although that case was already skipped above. -/
def zodBaseFields (d : Definition) (objectName : String) :
    List Field → String → Except GenErr String
  | [], b => .ok b
  | f :: fs, b =>
    if (metaLookup f.Metadata "exclude").isSome then
      zodBaseFields d objectName fs b
    else if (metaLookup f.Metadata "extend").isSome then
      zodBaseFields d objectName fs b
    else if removePackagePrefix f.type.CleanObjectName == objectName then
      zodBaseFields d objectName fs b
    else do
      let b := b ++ "\t" ++ (f.NameLowerSnake ++ ": ")
      let b ←
        if f.type.IsObject then
          pure (writeZodObject f b)
        else if f.type.IsMap then
          pure (writeZodRecord d f b)
        else if optionsNotNil f then
          writeZodEnum f b
        else
          match metaLookup f.Metadata "type" with
          | some (.str customTypeName) => do
            let t ← getTypeNameForZod customTypeName
            pure (b ++ t)
          | _ => pure (b ++ ("z." ++ f.type.JSType ++ "()"))
      let b ← writeZodFieldModifiers f b
      let b := if removePackagePrefix f.type.CleanObjectName == objectName then b ++ ")" else b
      zodBaseFields d objectName fs (writeNewLines 1 (b ++ ","))

/-- Embedding of `(d *Definition) writeZodBaseObject`. -/
def writeZodBaseObject (d : Definition) (fields : List Field) (objectName : String)
    (builder : String) : Except GenErr String := do
  let b := writeNewLines 1 (builder ++ "z.object(\x7b")
  let b ← zodBaseFields d objectName fields b
  pure (b ++ "\x7d)")

/-- The per-field loop of `writeRecursiveType`. -/
def recTypeFields (object : Object) : List Field → String → Except GenErr String
  | [], b => .ok b
  | f :: fs, b => do
    let b := b ++ "\t" ++ f.NameLowerSnake
    let b ←
      match metaLookup f.Metadata "optional" with
      | none => pure b
      | some v => do
        let ob ← boolAssert v
        pure (if ob then b ++ "?" else b)
    let b := b ++ ": " ++ (object.Name ++ "Recursive")
    let b := if f.type.Multiple then writeBracketSuffixes f.type.MultipleTimes.length b else b
    let b ←
      match metaLookup f.Metadata "nullable" with
      | none => pure b
      | some v => do
        let nb ← boolAssert v
        pure (if nb then b ++ " | null" else b)
    recTypeFields object fs (writeNewLines 1 (b ++ ";"))

/-- Embedding of `writeRecursiveType`: the derived type intersecting the
base schema shape with the self-referential fields. -/
def writeRecursiveType (recursiveFields : List Field) (object : Object)
    (builder : String) : Except GenErr String := do
  let b := writeNewLines 1 (builder ++
    ("type " ++ object.Name ++ "Recursive = z.infer<typeof " ++
      object.NameLowerCamel ++ "BaseSchema> & \x7b"))
  let b ← recTypeFields object recursiveFields b
  pure (b ++ "\x7d;")

/-- The per-field loop of `writeExtendedRecursiveZodObject`. -/
def extRecFields (objectName : String) : List Field → String → Except GenErr String
  | [], b => .ok b
  | f :: fs, b => do
    let b := writeNewLines 1 b
    let b := b ++ "\t" ++ (f.NameLowerSnake ++ ": ") ++ "z.lazy(() => " ++
      (camelizeDown objectName ++ "Schema") ++ ")"
    let b ← writeZodFieldModifiers f b
    extRecFields objectName fs (writeNewLines 1 (b ++ ","))

/-- Embedding of `writeExtendedRecursiveZodObject`: the public schema as
the base schema extended with lazily self-referential fields. -/
def writeExtendedRecursiveZodObject (fields : List Field) (objectName : String)
    (builder : String) : Except GenErr String := do
  let b := builder ++
    ("export const " ++ camelizeDown objectName ++ "Schema: z.ZodType<" ++
      objectName ++ "Recursive> = " ++ camelizeDown objectName ++ "BaseSchema.extend(\x7b")
  let b ← extRecFields objectName fields b
  pure (b ++ "\x7d)")

/-- The dependency-recursion loop of `writeZodEndpointSchemaObject` over an
object's fields: skip excluded fields, recurse into object-typed fields
and into map element types that name an object.  The recursive call into
`writeZodEndpointSchemaObject` is passed as `recur`. -/
def zodFieldsDeps
    (recur : String → String → List String → Except GenErr (String × List String))
    (d : Definition) :
    List Field → String → List String → Except GenErr (String × List String)
  | [], b, g => .ok (b, g)
  | f :: fs, b, g =>
    if (metaLookup f.Metadata "exclude").isSome then
      zodFieldsDeps recur d fs b g
    else do
      let (b, g) ←
        if f.type.IsObject then recur f.type.CleanObjectName b g else pure (b, g)
      let (b, g) ←
        if f.type.IsMap then
          match d.findObject f.type.Map.ElementType with
          | some _ => recur f.type.Map.ElementType b g
          | none => pure (b, g)
        else pure (b, g)
      zodFieldsDeps recur d fs b g

/-- Embedding of `(d *Definition) writeZodEndpointSchemaObject`.  The Go
function recurses through the object graph with the emitted-set as its
only cycle breaker; the `Nat` fuel bounds that recursion (the claim about
termination is that sufficient fuel never yields `GenErr.outOfFuel`).
The name is first stripped of package qualification; an already-generated
name returns immediately; otherwise the name is marked generated before
the dependency recursion, the object is looked up (a panic when absent),
dependencies are emitted first, then the base/recursive/extended schema
text for this object, exactly as in the source. -/
def writeZodESO (d : Definition) :
    Nat → String → String → List String → Except GenErr (String × List String)
  | 0, _, _, _ => .error .outOfFuel
  | Nat.succ fuel, objectName0, builder, generated =>
    let objectName := removePackagePrefix objectName0
    if objectName ∈ generated then .ok (builder, generated)
    else
      let generated := generated ++ [objectName]
      match d.findObject objectName with
      | none =>
        .error (.panicked ("cannot get object to generate zod endpoint schema for object " ++
          objectName ++ " " ++ "not found"))
      | some object => do
        let (builder, generated) ←
          zodFieldsDeps (writeZodESO d fuel) d object.Fields builder generated
        let recursiveFields := getRecursiveFields object.Fields objectName
        let builder ←
          if recursiveFields.length > 0 then do
            let b := builder ++ ("const " ++ object.NameLowerCamel ++ "BaseSchema = ")
            let b ← writeZodBaseObject d object.Fields objectName b
            pure (writeNewLines 2 (b ++ ";"))
          else pure builder
        let extendedFields := getExtendedFields object.Fields
        let builder ←
          if recursiveFields.length > 0 then do
            let b ← writeRecursiveType recursiveFields object builder
            let b := writeNewLines 2 b
            writeExtendedRecursiveZodObject recursiveFields object.Name b
          else do
            let b := builder ++ ("export const " ++ camelizeDown object.Name ++ "Schema = ")
            writeZodBaseObject d object.Fields objectName b
        let builder :=
          if extendedFields.length > 0 then builder ++ getMergeString extendedFields
          else builder
        .ok (writeNewLines 2 (builder ++ ";"), generated)

/-- Go `bufio.Scanner` line dropping of a trailing carriage return. -/
def dropCR (line : String) : String :=
  match line.data.reverse with
  | '\r' :: rest => String.mk rest.reverse
  | _ => line

/-- The lines produced by `bufio.NewScanner(strings.NewReader(comment))`
with the default `ScanLines` split: split on newline, no final empty token
when the input ends with a newline, and a trailing carriage return removed
from each line. -/
def splitLines (s : String) : List String :=
  let ls := strSplitOn s "\n"
  (if ls.getLastD "x" = "" then ls.dropLast else ls).map dropCR

/-- Whether `metadataCommentRegex` matches the line.  The pattern is
`^.*: .*` where `.` does not match a newline and a scanned line contains
none, so a line matches exactly when it contains the substring ": ". -/
def hasColonSpace (line : String) : Bool :=
  (strSplitOn line ": ").length ≥ 2

/-- The key of a metadata line: `strings.SplitN(line, ": ", 2)[0]`. -/
def metaKeyOf (line : String) : String :=
  (strSplitOn line ": ").headD ""

/-- The value of a metadata line:
`strings.TrimSpace(strings.SplitN(line, ": ", 2)[1])`. -/
def metaValOf (line : String) : String :=
  strTrim (String.intercalate ": " ((strSplitOn line ": ").tail))

/-- The scanner loop of `(p *Parser) extractCommentMetadata`, translated
line by line from the source.  `jp` stands for `json.Unmarshal` into an
`interface{}` value (`none` models a JSON parse failure, in which case the
line is skipped after the verbose diagnostic).  The scanner already
removed any trailing carriage return (see `splitLines`), so the loop body
begins with `strings.TrimSpace`.  The early return inside
the match branch when the trimmed line is empty is kept from the source,
although a matching line always contains ": " and so is never empty.
`metadata` collects key/value pairs with Go map write semantics and
`lines` collects, in order, the trimmed non-blank non-matching lines. -/
def extractLoop (jp : String → Option JsonVal) (metadata : Metadata)
    (lines : List String) : List String → Metadata × String
  | [] => (metadata, String.intercalate "\n" lines)
  | raw :: rest =>
    let line := strTrim raw
    if hasColonSpace line then
      if line = "" then (metadata, String.intercalate "\n" lines)
      else
        match jp (metaValOf line) with
        | none => extractLoop jp metadata lines rest
        | some v => extractLoop jp (metaSet metadata (metaKeyOf line) v) lines rest
    else
      if line = "" then extractLoop jp metadata lines rest
      else extractLoop jp metadata (lines ++ [line]) rest

/-- Embedding of `(p *Parser) extractCommentMetadata`.  The Go function
also returns an error, but both of its return statements return nil, so
the embedding returns just the metadata map and the residual comment. -/
def extractCommentMetadata (jp : String → Option JsonVal) (comment : String) :
    Metadata × String :=
  extractLoop jp [] [] (splitLines comment)

/-- GoMap models the `map[string]interface{}` under construction in
`Definition.Example`, with Go map write semantics via `exMapSet`. -/
abbrev GoMap := List (String × ExVal)

/-- Go map write for the example map. -/
def exMapSet (m : GoMap) (k : String) (v : ExVal) : GoMap :=
  match m with
  | [] => [(k, v)]
  | (k', v') :: rest =>
    if k' == k then (k, v) :: rest else (k', v') :: exMapSet rest k v

/-- The field loop of `(d *Definition) Example`, with the recursive call
`d.Example(*subobj)` passed as `recur` (`none` models fuel exhaustion of
the unbounded Go recursion).  An object-typed field whose object is not
found gets the `ErrNotFound` sentinel and is skipped (`continue`); the
lookup returns no other error, so the error-wrapping return is
unreachable.  A self-referential field stores `struct{}{}`.  A nested
example is wrapped in a one-element array when the field is multiple;
a primitive example is replaced by a three-element array. -/
def exampleFields (recur : Object → Option GoMap) (d : Definition) (o : Object) :
    List Field → GoMap → Option GoMap
  | [], acc => some acc
  | f :: fs, acc =>
    if f.type.IsObject then
      match d.findObject f.type.CleanObjectName with
      | none => exampleFields recur d o fs acc
      | some subobj =>
        if subobj.Name == o.Name then
          exampleFields recur d o fs (exMapSet acc f.NameLowerSnake .unit)
        else
          match recur subobj with
          | none => none
          | some ex =>
            let v := if f.type.Multiple then ExVal.arr [ExVal.obj ex]
                     else ExVal.obj ex
            exampleFields recur d o fs (exMapSet acc f.NameLowerSnake v)
    else
      let v := if f.type.Multiple then ExVal.arr [f.Example, f.Example, f.Example]
               else f.Example
      exampleFields recur d o fs (exMapSet acc f.NameLowerSnake v)

/-- Embedding of `(d *Definition) Example`, bounded by fuel. -/
def Definition.Example (d : Definition) : Nat → Object → Option GoMap
  | 0, _ => none
  | Nat.succ fuel, o => exampleFields (d.Example fuel) d o o.Fields []

/-- JSON string quoting as done by Go `encoding/json` for the strings in
this development: standard escapes for quote, backslash and control
characters, and the HTML-safe escapes for angle brackets and ampersand. -/
def jsonQuoteChar (c : Char) : String :=
  if c = '"' then "\\\""
  else if c = '\\' then "\\\\"
  else if c = '\n' then "\\n"
  else if c = '\t' then "\\t"
  else if c = '\r' then "\\r"
  else if c = '<' then "\\u003c"
  else if c = '>' then "\\u003e"
  else if c = '&' then "\\u0026"
  else String.singleton c

/-- JSON string quoting. -/
def jsonQuote (s : String) : String :=
  "\"" ++ String.join (s.data.map jsonQuoteChar) ++ "\""

/-- Byte-order comparison of strings, as `sort.Strings` orders Go map
keys (codepoint order coincides with UTF-8 byte order). -/
def charListLe : List Char → List Char → Bool
  | [], _ => true
  | _ :: _, [] => false
  | a :: as, b :: bs =>
    if a.toNat < b.toNat then true
    else if b.toNat < a.toNat then false
    else charListLe as bs

/-- String comparison on the underlying characters. -/
def strLe (a b : String) : Bool := charListLe a.data b.data

/-- Insertion of a serialized key/value pair into a list sorted by key:
Go `encoding/json` serializes map entries in sorted key order. -/
def insertByKey (p : String × String) : List (String × String) → List (String × String)
  | [] => [p]
  | q :: qs => if strLe p.1 q.1 then p :: q :: qs else q :: insertByKey p qs

/-- Sort serialized entries by key (insertion sort). -/
def sortByKey : List (String × String) → List (String × String)
  | [] => []
  | p :: ps => insertByKey p (sortByKey ps)

/-- Rendering of sorted serialized map entries. -/
def renderJsonMap (entries : List (String × String)) : String :=
  "\x7b" ++
    String.intercalate ","
      ((sortByKey entries).map (fun e => jsonQuote e.1 ++ ":" ++ e.2)) ++
  "\x7d"

/-- Go `json.Marshal` on a decoded JSON value.  The recursion of the
marshaller is bounded by fuel (structural recursion over nested values);
`none` only means the fuel was insufficient for the value's depth. -/
def serializeJson : Nat → JsonVal → Option String
  | 0, _ => none
  | Nat.succ _, .null => some "null"
  | Nat.succ _, .bool b => some (if b then "true" else "false")
  | Nat.succ _, .num n => some (toString n)
  | Nat.succ _, .str s => some (jsonQuote s)
  | Nat.succ n, .arr xs => do
    let ss ← xs.mapM (serializeJson n)
    pure ("[" ++ String.intercalate "," ss ++ "]")
  | Nat.succ n, .obj kvs => do
    let es ← kvs.mapM (fun kv => do
      let s ← serializeJson n kv.2
      pure (kv.1, s))
    pure (renderJsonMap es)

/-- Go `json.Marshal` on the example values built by `Definition.Example`:
`struct{}{}` marshals to an empty object, maps marshal with keys in sorted
order.  Fuel-bounded like `serializeJson`. -/
def serializeExVal : Nat → ExVal → Option String
  | 0, _ => none
  | Nat.succ n, .json j => serializeJson (Nat.succ n) j
  | Nat.succ _, .unit => some "\x7b\x7d"
  | Nat.succ n, .obj kvs => do
    let es ← kvs.mapM (fun kv => do
      let s ← serializeExVal n kv.2
      pure (kv.1, s))
    pure (renderJsonMap es)
  | Nat.succ n, .arr xs => do
    let ss ← xs.mapM (serializeExVal n)
    pure ("[" ++ String.intercalate "," ss ++ "]")

/-- Embedding of `(d *Definition) ExampleJSON`: the example map marshalled
to JSON bytes (`none` models fuel exhaustion of the recursion, either of
`Definition.Example` or of the marshaller). -/
def Definition.ExampleJSON (d : Definition) (fuel : Nat) (o : Object) : Option String :=
  (d.Example fuel o).bind (fun m => do
    let es ← m.mapM (fun kv => do
      let s ← serializeExVal fuel kv.2
      pure (kv.1, s))
    pure (renderJsonMap es))

/-- The synthetic error field appended by `(p *Parser) addOutputFields`,
value for value from the source. -/
def errorField : Field :=
  { OmitEmpty := true
    Name := "Error"
    NameLowerCamel := "error"
    NameLowerSnake := "error"
    Comment := "Error is string explaining what went wrong. Empty if everything was fine."
    type := { TypeName := "string", JSType := "string", SwiftType := "String", TSType := "string" }
    Metadata := []
    Example := .json (.str "something went wrong") }

/-- Appending `errorField` to the first object in the list with the given
name (the Go code mutates that object through the pointer returned by
`d.Object(typeName)`). -/
def appendErrorGo (typeName : String) : List Object → List Object
  | [] => []
  | o :: os =>
    if o.Name == typeName then { o with Fields := o.Fields ++ [errorField] } :: os
    else o :: appendErrorGo typeName os

/-- One iteration of the `addOutputFields` loop: look the object up (an
absent name is skipped - "it must be excluded") and append the synthetic
error field to it. -/
def appendErrorField (d : Definition) (typeName : String) : Definition :=
  if (d.findObject typeName).isSome then
    { d with Objects := appendErrorGo typeName d.Objects }
  else d

/-- Embedding of `(p *Parser) addOutputFields`: for every recorded output
object type name, look the object up in the definition (skipping names
that are not found, i.e. excluded objects) and append the synthetic error
field.  `outputObjects` is the key set of `p.outputObjects`; Go iterates
it in unspecified order, here as a list. -/
def addOutputFields (outputObjects : List String) (d : Definition) : Definition :=
  outputObjects.foldl appendErrorField d

/-- ParseErr models the error values of the parser embedding: an error
wrapped with a source position by `(p *Parser) wrapErr`, or an error
wrapped with a context label by `errors.Wrap`. -/
inductive ParseErr where
  | atPos : Nat → String → ParseErr
  | context : String → ParseErr → ParseErr
deriving DecidableEq

/-- The resolved view of one method of an interface declaration, as
supplied by the external go/types loader: name, source position, raw doc
comment, parameter and result type expressions (of an abstract type,
consumed only by the supplied field-type resolver). -/
structure GoMethodSig (α : Type) where
  name : String
  pos : Nat
  comment : String
  params : List α
  results : List α

/-- The invalid-arity message of `parseMethod`. -/
def invalidSignatureMsg : String :=
  "invalid method signature: expected Method(MethodRequest) MethodResponse"

/-- Embedding of `(p *Parser) parseMethod`.  `jp` is the JSON decoder used
by metadata extraction and `pft` is `p.parseFieldType` on the loader's
type expressions (abstract here, since it walks go/types values).  The
extract-metadata error branch in the source is unreachable because
`extractCommentMetadata` always returns a nil error.  Exactly as in the
source: the parameter list must have length one (else the
position-wrapped invalid-signature error), the single parameter is
resolved (errors wrapped "parse input object type"), then the result list
must have length one (same error), and the single result is resolved
(errors wrapped "parse output object type"). -/
def parseMethod {α : Type} (jp : String → Option JsonVal)
    (pft : α → Except ParseErr FieldType) (m0 : GoMethodSig α) :
    Except ParseErr Method :=
  let mc := extractCommentMetadata jp m0.comment
  match m0.params with
  | [p] =>
    match pft p with
    | .error e => .error (.context "parse input object type" e)
    | .ok inputObject =>
      match m0.results with
      | [r] =>
        match pft r with
        | .error e => .error (.context "parse output object type" e)
        | .ok outputObject =>
          .ok { Name := m0.name
                NameLowerCamel := camelizeDown m0.name
                NameLowerSnake := snakeDown m0.name
                InputObject := inputObject
                OutputObject := outputObject
                Comment := mc.2
                Metadata := mc.1 }
      | _ => .error (.atPos m0.pos invalidSignatureMsg)
  | _ => .error (.atPos m0.pos invalidSignatureMsg)

/-- The object registration state of the parser: `objects` is the key set
of `p.objects` (names already parsed) and `defObjects` is
`p.def.Objects`. -/
structure RegState where
  objects : List String
  defObjects : List Object

/-- One flat (non-reentrant) registration step of
`(p *Parser) parseObject`: a struct declaration whose name is already in
`p.objects` is silently skipped; otherwise the parsed object is appended
to `p.def.Objects` and its name recorded.  In the source the duplicate
check (example.go:731) and the append (example.go:757) are not adjacent:
the field parsing between them can reentrantly register further objects
through `parseFieldType` (example.go:879).  This definition models the
step when no such nested registration intervenes; the reentrant case is
modelled by `parseObjectWithStructField`. -/
def parseObjectRegister (st : RegState) (obj : Object) : RegState :=
  if obj.Name ∈ st.objects then st
  else { objects := st.objects ++ [obj.Name], defObjects := st.defObjects ++ [obj] }

/-- The registration trace of `(p *Parser) parseObject` for an object one
of whose fields has a non-pointer named struct type: the outer duplicate
check (example.go:731) runs first, then the field loop reaches
`parseFieldType`, which reentrantly runs the complete registration of the
field's struct type (example.go:879, its own check and append), and only
then does the outer call append its object and mark its name
(example.go:757-758) without re-checking. -/
def parseObjectWithStructField (st : RegState) (outer inner : Object) : RegState :=
  if outer.Name ∈ st.objects then st
  else
    let st1 := parseObjectRegister st inner
    { objects := st1.objects ++ [outer.Name], defObjects := st1.defObjects ++ [outer] }

/-- The `GreetResponse` greeting field of claim C1: a string field with
explicit example "Hello there" and multiplicity depth one. -/
def greetingField : Field :=
  { Name := "Greeting"
    NameLowerCamel := "greeting"
    NameLowerSnake := "greeting"
    type := { TypeName := "[]string", CleanObjectName := "string", JSType := "string",
              TSType := "string", SwiftType := "String", Multiple := true,
              MultipleTimes := [()] }
    Example := .json (.str "Hello there") }

/-- The `GreetResponse` object of claim C1, carrying the synthetic error
field because it is a method output. -/
def greetResponse : Object :=
  { Name := "GreetResponse"
    NameLowerCamel := "greetResponse"
    NameLowerSnake := "greet_response"
    Fields := [greetingField, errorField] }

/-- A definition holding just `greetResponse`. -/
def greetDefinition : Definition :=
  { PackageName := "pleasantries", Objects := [greetResponse] }

/-- One of the two mutually referential objects of claim C3: named `a`,
with a single object-typed field referencing `b`. -/
def mutualObj (a b : String) : Object :=
  { Name := a
    NameLowerCamel := camelizeDown a
    NameLowerSnake := snakeDown a
    Fields := [{ Name := "Other"
                 NameLowerCamel := "other"
                 NameLowerSnake := "other"
                 type := { TypeName := b, ObjectName := b, CleanObjectName := b,
                           IsObject := true } }] }

/-- The mutual-reference definition of claim C3: two distinct objects,
each referencing the other exactly once, neither referencing itself. -/
def mutualDef (a b : String) : Definition :=
  { PackageName := "p", Objects := [mutualObj a b, mutualObj b a] }

/-- The schema text emitted for `mutualDef a b` starting from `a`: the
dependency `b` first, then `a`, each exactly once. -/
def mutualText (a b : String) : String :=
  "export const " ++ camelizeDown b ++ "Schema = z.object(\x7b\n\tother: " ++
    camelizeDown a ++ "Schema,\n\x7d);\n\n" ++
  "export const " ++ camelizeDown a ++ "Schema = z.object(\x7b\n\tother: " ++
    camelizeDown b ++ "Schema,\n\x7d);\n\n"

/-- A concrete field of multiplicity depth two flagged nullable and
optional, used to witness the modifier-order theorem. -/
def c4Field : Field :=
  { type := { Multiple := true, MultipleTimes := [(), ()] }
    Metadata := [("nullable", .bool true), ("optional", .bool true)] }

/-- A concrete field carrying an unknown custom scalar type name, used to
witness the custom-type panic theorem. -/
def c8Field : Field := { Metadata := [("type", .str "UUID")] }

/-- A trivial field-type resolver used to witness the method-arity
theorem. -/
def c6Resolver : Unit → Except ParseErr FieldType := fun _ => .ok {}

/-- A two-parameter method signature used to witness the method-arity
theorem. -/
def c6BadMethod : GoMethodSig Unit :=
  { name := "Greet", pos := 42, comment := "", params := [(), ()], results := [()] }

/-- A two-object definition used to witness the output-error-field
theorem. -/
def c5Def : Definition := { Objects := [{ Name := "A" }, { Name := "B" }] }

/-- A field referencing an absent object, used to witness the
missing-object skip theorem. -/
def c10Field : Field :=
  { NameLowerSnake := "gone", type := { IsObject := true, CleanObjectName := "Missing" } }

/-- The locally declared `Page` of the reentrancy counterexample:
`type Page struct \x7b Remote services.Page \x7d`. -/
def localPage : Object :=
  { Name := "Page"
    NameLowerCamel := "page"
    NameLowerSnake := "page"
    Fields := [{ Name := "Remote"
                 NameLowerCamel := "remote"
                 NameLowerSnake := "remote"
                 type := { TypeName := "services.Page", ObjectName := "Page",
                           CleanObjectName := "services.Page", IsObject := true,
                           Package := "services" } }] }

/-- The imported `services.Page` of the reentrancy counterexample: its
bare declared name, under which `parseObject` registers it, is also
"Page". -/
def remotePage : Object :=
  { Name := "Page"
    NameLowerCamel := "page"
    NameLowerSnake := "page"
    Imported := true }

/-- A string repeated n times, used to state how many modifier suffixes a
rendered field carries. -/
def repeatStr : Nat → String → String
  | 0, _ => ""
  | n + 1, t => t ++ repeatStr n t

theorem writeArraySuffixes_eq (n : Nat) (b : String) :
    writeArraySuffixes n b = b ++ repeatStr n ".array()" := by
  induction n generalizing b with
  | zero => simp [writeArraySuffixes, repeatStr]
  | succ n ih =>
    simp [writeArraySuffixes, repeatStr, ih, String.append_assoc]

/-- C1 (counterexample): on the `GreetResponse` object of the claim -
field `Greeting` a string of multiplicity depth one with example
"Hello there", plus the synthetic `Error` field - `ExampleJSON` does not
return the claimed bytes with `greeting` a one-element array. -/
theorem c1_counterexample :
    Definition.ExampleJSON greetDefinition 2 greetResponse ≠
      some "\x7b\"error\":\"something went wrong\",\"greeting\":[\"Hello there\"]\x7d" := by
  decide

/-- C1 (amended): on that object `ExampleJSON` returns exactly the bytes
with keys alphabetized and the repeated string example wrapped as a
three-element array (`Definition.Example` replaces a multiple primitive
example by three copies of it). -/
theorem c1_example_json_bytes :
    Definition.ExampleJSON greetDefinition 2 greetResponse =
      some "\x7b\"error\":\"something went wrong\",\"greeting\":[\"Hello there\",\"Hello there\",\"Hello there\"]\x7d" := by
  decide

/-- C4: for every field, the rendered modifier suffix string is exactly
one ".array()" per unit of multiplicity depth, then ".nullable()" when the
metadata flags it, then ".optional()" when the metadata flags it - arrays
before nullable before optional, whichever subset is present.  The
hypotheses state that the multiplicity flag agrees with the depth counter
(as the type resolver guarantees) and that the nullable/optional metadata
entries, when present, are booleans (as JSON-decoded flag values are). -/
theorem c4_modifier_suffixes (f : Field) (builder : String) (nul opt : Bool)
    (hm : f.type.Multiple = true ∨ f.type.MultipleTimes.length = 0)
    (hn : metaLookup f.Metadata "nullable" = some (.bool nul) ∨
      (metaLookup f.Metadata "nullable" = none ∧ nul = false))
    (ho : metaLookup f.Metadata "optional" = some (.bool opt) ∨
      (metaLookup f.Metadata "optional" = none ∧ opt = false)) :
    writeZodFieldModifiers f builder =
      .ok (builder ++ repeatStr f.type.MultipleTimes.length ".array()" ++
        (if nul then ".nullable()" else "") ++ (if opt then ".optional()" else "")) := by
  have harr : (if f.type.Multiple = true then
      writeArraySuffixes f.type.MultipleTimes.length builder else builder) =
      builder ++ repeatStr f.type.MultipleTimes.length ".array()" := by
    rcases hm with hm | hm
    · simp [hm, writeArraySuffixes_eq]
    · cases hmul : f.type.Multiple <;>
        simp [hm, hmul, writeArraySuffixes_eq, repeatStr, String.append_empty]
  rcases hn with hn | ⟨hn, hnv⟩ <;> rcases ho with ho | ⟨ho, hov⟩ <;> subst_vars <;>
    simp only [writeZodFieldModifiers, hn, ho, harr, boolAssert, bind, Except.bind,
      pure, Except.pure] <;>
    first
      | (cases nul <;> cases opt <;> simp [String.append_empty])
      | (cases nul <;> simp [String.append_empty])
      | (cases opt <;> simp [String.append_empty])
      | simp [String.append_empty]

/-- C4 (witness): a field of multiplicity depth two, flagged nullable and
optional, renders ".array().array().nullable().optional()". -/
theorem c4_modifier_suffixes_witness :
    writeZodFieldModifiers c4Field "z.string()" =
      .ok "z.string().array().array().nullable().optional()" := by
  rw [c4_modifier_suffixes c4Field "z.string()" true true (Or.inl rfl) (Or.inl rfl)
    (Or.inl rfl)]
  rfl

/-- C8: explicit custom scalar type metadata resolves through
`getTypeNameForZod`: a name carrying the known "types." prefix renders to
the corresponding "ZodTypes." identifier, any other name is a panic - and
the panic propagates out of the base-object writer as
`GenErr.panicked`, the embedding's fatal programmer-error kind (the zod
writers have no ordinary error returns, so no data-validation error can
ever be produced). -/
theorem c8_custom_type_panic :
    (∀ s, strIsPrefixOf "types." s = true →
      getTypeNameForZod s = .ok ("ZodTypes." ++ strDrop s 6)) ∧
    (∀ s, strIsPrefixOf "types." s = false →
      getTypeNameForZod s = .error (.panicked ("invalid field type: " ++ s))) ∧
    (∀ (d : Definition) (objectName builder : String) (f : Field) (s : String),
      metaLookup f.Metadata "exclude" = none →
      metaLookup f.Metadata "extend" = none →
      (removePackagePrefix f.type.CleanObjectName == objectName) = false →
      f.type.IsObject = false →
      f.type.IsMap = false →
      optionsNotNil f = false →
      metaLookup f.Metadata "type" = some (.str s) →
      strIsPrefixOf "types." s = false →
      zodBaseFields d objectName [f] builder =
        .error (.panicked ("invalid field type: " ++ s))) := by
  refine ⟨fun s h => ?_, fun s h => ?_, ?_⟩
  · simp [getTypeNameForZod, h]
  · simp [getTypeNameForZod, h]
  · intro d objectName builder f s h1 h2 h3 h4 h5 h6 h7 h8
    simp [zodBaseFields, h1, h2, h3, h4, h5, h6, h7, getTypeNameForZod, h8,
      bind, Except.bind, pure, Except.pure]

/-- C8 (witness): the unknown custom type name "UUID" makes the base
object writer panic. -/
theorem c8_custom_type_panic_witness :
    zodBaseFields ({} : Definition) "X" [c8Field] "" =
      .error (.panicked ("invalid field type: " ++ "UUID")) :=
  c8_custom_type_panic.2.2 {} "X" "" c8Field "UUID" rfl rfl rfl rfl rfl rfl rfl rfl

/-- C6: a method whose parameter count is not exactly one, or whose
result count is not exactly one, fails to parse: a wrong parameter count
yields the position-wrapped invalid-signature error at the method's
position; with one parameter, a failing input-type resolution aborts with
the context-wrapped resolver error; with one successfully resolved
parameter, a wrong result count yields the position-wrapped
invalid-signature error; and with exactly one parameter and one result
the invalid-signature error is never produced. -/
theorem c6_method_arity {α : Type} (jp : String → Option JsonVal)
    (pft : α → Except ParseErr FieldType) (m0 : GoMethodSig α) :
    (m0.params.length ≠ 1 →
      parseMethod jp pft m0 = .error (.atPos m0.pos invalidSignatureMsg)) ∧
    (∀ p e, m0.params = [p] → pft p = .error e →
      parseMethod jp pft m0 = .error (.context "parse input object type" e)) ∧
    (∀ p ft, m0.params = [p] → pft p = .ok ft → m0.results.length ≠ 1 →
      parseMethod jp pft m0 = .error (.atPos m0.pos invalidSignatureMsg)) ∧
    (m0.params.length = 1 → m0.results.length = 1 →
      ∀ q, parseMethod jp pft m0 ≠ .error (.atPos q invalidSignatureMsg)) := by
  refine ⟨fun h => ?_, fun p e hp he => ?_, fun p ft hp hf hr => ?_, fun hp hr q => ?_⟩
  · match hm : m0.params with
    | [] => simp [parseMethod, hm]
    | [p] => exact absurd (by rw [hm]; rfl) h
    | p :: q :: rest => simp [parseMethod, hm]
  · simp [parseMethod, hp, he]
  · match hm : m0.results with
    | [] => simp [parseMethod, hp, hf, hm]
    | [r] => exact absurd (by rw [hm]; rfl) hr
    | r :: t :: rest => simp [parseMethod, hp, hf, hm]
  · match hm : m0.params with
    | [] => rw [hm] at hp; simp at hp
    | p :: q :: rest => rw [hm] at hp; simp at hp
    | [p] =>
      match hm2 : m0.results with
      | [] => rw [hm2] at hr; simp at hr
      | r :: t :: rest => rw [hm2] at hr; simp at hr
      | [r] =>
        cases hf : pft p with
        | error e => simp [parseMethod, hm, hf]
        | ok ft =>
          cases hg : pft r with
          | error e => simp [parseMethod, hm, hm2, hf, hg]
          | ok ft2 => simp [parseMethod, hm, hm2, hf, hg]

/-- C6 (witness): a two-parameter method fails with the invalid-signature
error at its position, and a one-parameter one-result method does not
produce that error. -/
theorem c6_method_arity_witness :
    parseMethod (fun _ => none) c6Resolver c6BadMethod =
      .error (.atPos 42 invalidSignatureMsg) ∧
    parseMethod (fun _ => none) c6Resolver
      { c6BadMethod with params := [()] } ≠
      .error (.atPos 42 invalidSignatureMsg) := by
  constructor
  · exact (c6_method_arity (fun _ => none) c6Resolver c6BadMethod).1 (by decide)
  · exact (c6_method_arity (fun _ => none) c6Resolver
      { c6BadMethod with params := [()] }).2.2.2 rfl rfl 42

/-- C7 (amended): re-registering an object whose name was already
registered at its pre-field-parsing duplicate check is a silent no-op
(the parser state, including the definition's object list, is unchanged);
and for any sequence of flat registrations - each duplicate check
immediately followed by its append, with no reentrant registration from
field parsing in between - no two entries of the object list share a
name.  The unqualified uniqueness invariant of the original claim is
false of the program: see `c7_reentrant_duplicate_names`. -/
theorem c7_object_name_uniqueness :
    (∀ (st : RegState) (obj : Object), obj.Name ∈ st.objects →
      parseObjectRegister st obj = st) ∧
    (∀ objs : List Object,
      ((objs.foldl parseObjectRegister ⟨[], []⟩).defObjects.map Object.Name).Nodup) := by
  constructor
  · intro st obj h
    simp [parseObjectRegister, h]
  · have key : ∀ (objs : List Object) (st : RegState),
        (st.defObjects.map Object.Name).Nodup →
        (∀ n ∈ st.defObjects.map Object.Name, n ∈ st.objects) →
        ((objs.foldl parseObjectRegister st).defObjects.map Object.Name).Nodup := by
      intro objs
      induction objs with
      | nil => intro st h1 _; simpa using h1
      | cons o os ih =>
        intro st h1 h2
        simp only [List.foldl_cons]
        by_cases hm : o.Name ∈ st.objects
        · have hskip : parseObjectRegister st o = st := by simp [parseObjectRegister, hm]
          rw [hskip]; exact ih st h1 h2
        · have hreg : parseObjectRegister st o =
              ⟨st.objects ++ [o.Name], st.defObjects ++ [o]⟩ := by
            simp [parseObjectRegister, hm]
          rw [hreg]
          have hnotin : o.Name ∉ st.defObjects.map Object.Name := fun hmem => hm (h2 _ hmem)
          apply ih
          · simp [List.nodup_append, h1, hnotin]
          · intro n hn
            simp only [List.map_append, List.map_cons, List.map_nil,
              List.mem_append, List.mem_singleton] at hn
            rcases hn with hn | hn
            · exact List.mem_append_left _ (h2 _ hn)
            · exact List.mem_append_right _ (by simp [hn])
    exact fun objs => key objs ⟨[], []⟩ (by simp) (by simp)

/-- C7 (witness): registering `greetResponse` when its name is already in
the seen-set leaves the state unchanged. -/
theorem c7_object_name_uniqueness_witness :
    parseObjectRegister ⟨["GreetResponse"], [greetResponse]⟩ greetResponse =
      ⟨["GreetResponse"], [greetResponse]⟩ :=
  c7_object_name_uniqueness.1 ⟨["GreetResponse"], [greetResponse]⟩ greetResponse
    (by decide)

theorem mapCongrOn {α β : Type} (l : List α) (f g : α → β)
    (h : ∀ a ∈ l, f a = g a) : l.map f = l.map g := by
  induction l with
  | nil => rfl
  | cons a l ih =>
    simp only [List.map_cons, h a (List.mem_cons_self a l)]
    rw [ih (fun a ha => h a (List.mem_cons_of_mem _ ha))]

theorem appendErrorGo_names (t : String) (os : List Object) :
    (appendErrorGo t os).map Object.Name = os.map Object.Name := by
  induction os with
  | nil => rfl
  | cons o os ih =>
    by_cases h : o.Name == t <;> simp [appendErrorGo, h, ih]

theorem appendErrorGo_eq_map (t : String) (os : List Object)
    (h : (os.map Object.Name).Nodup) :
    appendErrorGo t os = os.map
      (fun o => if o.Name = t then { o with Fields := o.Fields ++ [errorField] } else o) := by
  induction os with
  | nil => rfl
  | cons o os ih =>
    simp only [List.map_cons, List.nodup_cons] at h
    by_cases he : o.Name = t
    · have hrest : os.map (fun o => if o.Name = t then
          { o with Fields := o.Fields ++ [errorField] } else o) = os.map id := by
        apply mapCongrOn
        intro a ha
        have : a.Name ≠ t := fun hat => h.1 (he ▸ hat ▸ List.mem_map_of_mem Object.Name ha)
        simp [this]
      simp [appendErrorGo, he, hrest]
    · have hbeq : (o.Name == t) = false := beq_eq_false_iff_ne.mpr he
      simp [appendErrorGo, hbeq, he, ih h.2]

theorem appendErrorField_eq_map (d : Definition) (t : String)
    (h : (d.Objects.map Object.Name).Nodup) :
    (appendErrorField d t).Objects = d.Objects.map
      (fun o => if o.Name = t then { o with Fields := o.Fields ++ [errorField] } else o) := by
  by_cases hf : (d.findObject t).isSome
  · simp [appendErrorField, hf, appendErrorGo_eq_map t d.Objects h]
  · have hnone : d.findObject t = none := by
      cases hv : d.findObject t
      · rfl
      · rw [hv] at hf; simp at hf
    have hall : ∀ o ∈ d.Objects, o.Name ≠ t := by
      intro o ho hot
      have := List.find?_eq_none.mp hnone o ho
      simp [hot] at this
    have : d.Objects.map (fun o => if o.Name = t then
        { o with Fields := o.Fields ++ [errorField] } else o) = d.Objects.map id := by
      apply mapCongrOn
      intro a ha
      simp [hall a ha]
    simp [appendErrorField, hf, this]

theorem appendErrorField_names (d : Definition) (t : String) :
    (appendErrorField d t).Objects.map Object.Name = d.Objects.map Object.Name := by
  by_cases hf : (d.findObject t).isSome <;>
    simp [appendErrorField, hf, appendErrorGo_names]

/-- C5: with the object names unique (the registration invariant) and the
recorded output type names unique (they are Go map keys), running
`addOutputFields` appends exactly one synthetic `Error` field - the
omit-if-empty string field with the fixed comment - to every object whose
name was recorded as a method output type, and leaves every other object
unchanged. -/
theorem c5_output_error_fields (outs : List String) (d : Definition)
    (hnd : (d.Objects.map Object.Name).Nodup) (hout : outs.Nodup) :
    (addOutputFields outs d).Objects =
      d.Objects.map (fun o =>
        if o.Name ∈ outs then { o with Fields := o.Fields ++ [errorField] } else o) := by
  induction outs generalizing d with
  | nil =>
    have : d.Objects.map (fun o =>
        if o.Name ∈ ([] : List String) then { o with Fields := o.Fields ++ [errorField] }
        else o) = d.Objects.map id := by
      apply mapCongrOn
      intro a _
      simp
    simp [addOutputFields, this]
  | cons t ts ih =>
    simp only [List.nodup_cons] at hout
    have hnd2 : ((appendErrorField d t).Objects.map Object.Name).Nodup := by
      rw [appendErrorField_names]; exact hnd
    have step : (addOutputFields (t :: ts) d) = addOutputFields ts (appendErrorField d t) := by
      simp [addOutputFields]
    rw [step, ih (appendErrorField d t) hnd2 hout.2, appendErrorField_eq_map d t hnd,
      List.map_map]
    apply mapCongrOn
    intro o _
    by_cases h1 : o.Name = t
    · simp only [Function.comp, h1, if_pos rfl]
      have : t ∉ ts := hout.1
      simp [h1, this]
    · simp only [Function.comp, h1, if_neg h1]
      by_cases h2 : o.Name ∈ ts <;> simp [h1, h2]

/-- C5 (witness): with recorded output set containing only "B", object "B"
gains exactly the synthetic error field and object "A" is unchanged. -/
theorem c5_output_error_fields_witness :
    (addOutputFields ["B"] c5Def).Objects =
      [{ Name := "A" }, { Name := "B", Fields := [errorField] }] := by
  rw [c5_output_error_fields ["B"] c5Def (by decide) (by decide)]
  rfl

/-- C10: in example generation, an object-typed field whose clean object
name is not present in the definition's object list is silently skipped -
the walk over the remaining fields continues from the same accumulated
map, exactly as if the field were absent, with no error and no
placeholder entry (the `ErrNotFound` sentinel is swallowed by the
`continue`). -/
theorem c10_missing_object_skipped (recur : Object → Option GoMap) (d : Definition)
    (o : Object) (pre post : List Field) (f : Field) (acc : GoMap)
    (hio : f.type.IsObject = true)
    (hnf : d.findObject f.type.CleanObjectName = none) :
    exampleFields recur d o (pre ++ f :: post) acc =
      exampleFields recur d o (pre ++ post) acc := by
  induction pre generalizing acc with
  | nil =>
    simp only [List.nil_append]
    simp [exampleFields, hio, hnf]
  | cons x xs ih =>
    simp only [List.cons_append, exampleFields]
    by_cases h1 : x.type.IsObject = true
    · cases h2 : d.findObject x.type.CleanObjectName with
      | none => simp only [h1, if_true, h2]; exact ih _
      | some subobj =>
        by_cases h3 : (subobj.Name == o.Name) = true
        · simp only [h1, if_true, h2, h3]; exact ih _
        · cases h4 : recur subobj with
          | none => simp [h1, h2, h3, h4]
          | some ex => simp [h1, h2, h3, h4]; exact ih _
    · simp [h1]
      exact ih _

/-- C10 (witness): a field referencing the absent object "Missing" is
skipped and the walk continues over the remaining fields. -/
theorem c10_missing_object_skipped_witness :
    exampleFields (fun _ => some []) greetDefinition greetResponse
      ([c10Field] ++ [errorField]) [] =
      exampleFields (fun _ => some []) greetDefinition greetResponse
        ([] ++ [errorField]) [] :=
  c10_missing_object_skipped (fun _ => some []) greetDefinition greetResponse
    [] [errorField] c10Field [] rfl rfl

/-- The empty string contains no ": " separator, so a matching metadata
line is never empty. -/
theorem hasColonSpace_ne_empty (l : String) (h : hasColonSpace l = true) : l ≠ "" := by
  intro he
  rw [he] at h
  exact absurd h (by decide)

/-- C9: a metadata-shaped line (one the regex matches) whose value fails
JSON parsing contributes nothing: extraction of the whole comment equals
extraction with that line removed, so the line reaches neither the
metadata mapping nor the residual comment, every other line is processed
exactly as before, and no error is raised (the Go function's error result
is always nil, which is why the embedding returns no error at all). -/
theorem c9_parse_failure_line_dropped (jp : String → Option JsonVal) (c : String)
    (pre post : List String) (f : String)
    (hsplit : splitLines c = pre ++ f :: post)
    (hm : hasColonSpace (strTrim f) = true)
    (hj : jp (metaValOf (strTrim f)) = none) :
    extractCommentMetadata jp c = extractLoop jp [] [] (pre ++ post) := by
  unfold extractCommentMetadata
  rw [hsplit]
  have hne : strTrim f ≠ "" := hasColonSpace_ne_empty _ hm
  have key : ∀ (pr : List String) (md : Metadata) (lines : List String),
      extractLoop jp md lines (pr ++ f :: post) = extractLoop jp md lines (pr ++ post) := by
    intro pr
    induction pr with
    | nil =>
      intro md lines
      simp only [List.nil_append]
      simp [extractLoop, hm, hne, hj]
    | cons r rs ih =>
      intro md lines
      simp only [List.cons_append, extractLoop]
      by_cases h1 : hasColonSpace (strTrim r)
      · by_cases h2 : strTrim r = ""
        · exact absurd (h2 ▸ h1) (by decide)
        · cases h3 : jp (metaValOf (strTrim r)) <;> simp [h1, h2, h3, ih]
      · by_cases h2 : strTrim r = "" <;> simp [h1, h2, ih]
  exact key pre [] []

/-- C9 (witness): the comment block "hello\nmonkey: oops\nworld" with a
JSON parser failing on every value extracts exactly as if the failing
metadata line "monkey: oops" were absent. -/
theorem c9_parse_failure_line_dropped_witness :
    extractCommentMetadata (fun _ => none) "hello\nmonkey: oops\nworld" =
      extractLoop (fun _ => none) [] [] (["hello"] ++ ["world"]) := by
  exact c9_parse_failure_line_dropped (fun _ => none) "hello\nmonkey: oops\nworld"
    ["hello"] ["world"] "monkey: oops" (by decide) (by decide) rfl

theorem metaSet_mem (md : Metadata) (k : String) (v : JsonVal)
    (kv : String × JsonVal) (h : kv ∈ metaSet md k v) : kv ∈ md ∨ kv = (k, v) := by
  induction md with
  | nil =>
    simp [metaSet] at h
    exact Or.inr h
  | cons p rest ih =>
    by_cases hk : (p.1 == k) = true
    · rw [show metaSet (p :: rest) k v = (k, v) :: rest from by
        cases p; simp [metaSet, hk]] at h
      rcases List.mem_cons.mp h with h | h
      · exact Or.inr h
      · exact Or.inl (List.mem_cons_of_mem _ h)
    · rw [show metaSet (p :: rest) k v = p :: metaSet rest k v from by
        cases p; simp [metaSet]; intro he; rw [he] at hk; simp at hk] at h
      rcases List.mem_cons.mp h with h | h
      · exact Or.inl (h ▸ List.mem_cons_self _ _)
      · rcases ih h with h | h
        · exact Or.inl (List.mem_cons_of_mem _ h)
        · exact Or.inr h

theorem extractLoop_comment (jp : String → Option JsonVal) (ls : List String) :
    ∀ (md : Metadata) (lines : List String),
    (extractLoop jp md lines ls).2 =
      String.intercalate "\n" (lines ++ (ls.map strTrim).filter
        (fun l => !hasColonSpace l && !(l == ""))) := by
  induction ls with
  | nil => intro md lines; simp [extractLoop]
  | cons r rs ih =>
    intro md lines
    simp only [extractLoop, List.map_cons, List.filter_cons]
    by_cases h1 : hasColonSpace (strTrim r) = true
    · have hne : strTrim r ≠ "" := hasColonSpace_ne_empty _ h1
      cases h3 : jp (metaValOf (strTrim r)) <;> simp [h1, hne, h3, ih]
    · by_cases h2 : strTrim r = ""
      · have h0 : hasColonSpace "" = false := by decide
        simp [h1, h2, h0, ih]
      · have hb : (strTrim r == "") = false := beq_eq_false_iff_ne.mpr h2
        simp [h1, h2, hb, ih, List.append_assoc]

theorem extractLoop_metadata (jp : String → Option JsonVal) (ls : List String) :
    ∀ (md : Metadata) (lines : List String),
    ∀ kv ∈ (extractLoop jp md lines ls).1, kv ∈ md ∨
      ∃ l ∈ ls.map strTrim, hasColonSpace l = true ∧
        metaKeyOf l = kv.1 ∧ jp (metaValOf l) = some kv.2 := by
  induction ls with
  | nil =>
    intro md lines kv h
    exact Or.inl (by simpa [extractLoop] using h)
  | cons r rs ih =>
    intro md lines kv h
    simp only [extractLoop] at h
    by_cases h1 : hasColonSpace (strTrim r) = true
    · have hne : strTrim r ≠ "" := hasColonSpace_ne_empty _ h1
      rw [if_pos h1, if_neg hne] at h
      cases h3 : jp (metaValOf (strTrim r)) with
      | none =>
        rw [h3] at h
        rcases ih md lines kv h with h | ⟨l, hl, hp⟩
        · exact Or.inl h
        · exact Or.inr ⟨l, List.mem_cons_of_mem _ hl, hp⟩
      | some v =>
        rw [h3] at h
        rcases ih _ lines kv h with h | ⟨l, hl, hp⟩
        · rcases metaSet_mem md _ v kv h with h | h
          · exact Or.inl h
          · refine Or.inr ⟨strTrim r, List.mem_cons_self _ _, h1, ?_, ?_⟩
            · rw [h]
            · rw [h, h3]
        · exact Or.inr ⟨l, List.mem_cons_of_mem _ hl, hp⟩
    · rw [if_neg h1] at h
      by_cases h2 : strTrim r = ""
      · rw [if_pos h2] at h
        rcases ih md lines kv h with h | ⟨l, hl, hp⟩
        · exact Or.inl h
        · exact Or.inr ⟨l, List.mem_cons_of_mem _ hl, hp⟩
      · rw [if_neg h2] at h
        rcases ih md _ kv h with h | ⟨l, hl, hp⟩
        · exact Or.inl h
        · exact Or.inr ⟨l, List.mem_cons_of_mem _ hl, hp⟩

/-- C2 (counterexample): the line "Kind is one of: monthly, weekly" does
not match the shape `identifier: value` (its text before the colon
contains spaces), so under the claim it must be appended to the returned
comment body; the code instead classifies it as metadata-shaped (the
regex only requires a ": " substring) and it never reaches the comment -
neither when its value fails JSON parsing (it is dropped entirely) nor
when parsing succeeds (it lands in the metadata map). -/
theorem c2_counterexample :
    (extractCommentMetadata (fun _ => none)
        "This is a comment\nKind is one of: monthly, weekly").2 = "This is a comment" ∧
    (extractCommentMetadata (fun _ => some .null)
        "This is a comment\nKind is one of: monthly, weekly").2 = "This is a comment" ∧
    (extractCommentMetadata (fun _ => none)
        "This is a comment\nKind is one of: monthly, weekly").2 ≠
      "This is a comment\nKind is one of: monthly, weekly" := by
  refine ⟨by decide, by decide, by decide⟩

/-- C2 (amended): for every comment block and every JSON decoder, the
lines treated as metadata are exactly those whose trimmed text contains
the substring ": " (the key, everything before the first ": ", need not be
an identifier and may contain spaces or be empty); every other non-blank
line is appended, in input order, to the returned comment body.  Stated
as: the returned comment is exactly the in-order join of the trimmed
lines that are non-blank and not metadata-shaped, and every returned
metadata entry originates from a metadata-shaped line whose key and
successfully decoded value it carries. -/
theorem c2_metadata_line_routing (jp : String → Option JsonVal) (c : String) :
    (extractCommentMetadata jp c).2 =
      String.intercalate "\n" (((splitLines c).map strTrim).filter
        (fun l => !hasColonSpace l && !(l == ""))) ∧
    (∀ kv ∈ (extractCommentMetadata jp c).1,
      ∃ l ∈ (splitLines c).map strTrim, hasColonSpace l = true ∧
        metaKeyOf l = kv.1 ∧ jp (metaValOf l) = some kv.2) := by
  constructor
  · simpa using extractLoop_comment jp (splitLines c) [] []
  · intro kv h
    rcases extractLoop_metadata jp (splitLines c) [] [] kv h with h | h
    · exact absurd h (List.not_mem_nil kv)
    · exact h

/-- C3: for the definition holding two distinct objects that each
reference the other exactly once (and neither itself), schema generation
terminates - fuel three, one unit per entry, suffices and the
fuel-exhaustion marker is never produced - emitting each object's schema
exactly once, the dependency first: the produced text is exactly
`mutualText a b` and the emitted set is exactly `[a, b]`.  Moreover (the
mechanism, for any definition): a name is added to the emitted set before
the recursion into field dependencies, so any re-entry for an
already-emitted or currently-being-emitted object returns immediately
with the builder and the emitted set unchanged. -/
theorem c3_mutual_reference_emitted_once (a b : String)
    (hab : a ≠ b)
    (ha : removePackagePrefix a = a)
    (hb : removePackagePrefix b = b) :
    writeZodESO (mutualDef a b) 3 a "" [] = .ok (mutualText a b, [a, b]) ∧
    (∀ (d : Definition) (fuel : Nat) (name builder : String) (generated : List String),
      removePackagePrefix name ∈ generated →
      writeZodESO d (fuel + 1) name builder generated = .ok (builder, generated)) := by
  have hbeq_ab : (a == b) = false := beq_eq_false_iff_ne.mpr hab
  have hbeq_ba : (b == a) = false := beq_eq_false_iff_ne.mpr (Ne.symm hab)
  constructor
  · show writeZodESO (mutualDef a b) (Nat.succ 2) a "" [] = .ok (mutualText a b, [a, b])
    simp only [writeZodESO, mutualDef, mutualObj, mutualText, Definition.findObject,
      zodFieldsDeps, getRecursiveFields, getExtendedFields, getMergeString,
      writeZodBaseObject, zodBaseFields, writeZodObject, writeZodFieldModifiers,
      writeNewLines, metaLookup, ha, hb, hbeq_ab, hbeq_ba, beq_self_eq_true,
      List.find?, List.filter, List.not_mem_nil, List.mem_cons, List.mem_singleton,
      List.length_nil, bind, Except.bind, pure, Except.pure, boolAssert,
      String.append_assoc]
    have m1 : ∀ x : String,
        "Schema = " ++ ("z.object(\x7b" ++ ("\n" ++ ("\t" ++ ("other" ++ (": " ++ x))))) =
          "Schema = z.object(\x7b\n\tother: " ++ x := fun x => by
      simp only [← String.append_assoc]
      simp
    simp [hab, Ne.symm hab, String.append_assoc, m1]
  · intro d fuel name builder generated h
    simp [writeZodESO, h]

/-- C3 (witness): the mutual pair "Alpha"/"Beta" is generated with fuel
three, emitting `betaSchema` then `alphaSchema`, each exactly once. -/
theorem c3_mutual_reference_emitted_once_witness :
    writeZodESO (mutualDef "Alpha" "Beta") 3 "Alpha" "" [] =
      .ok (mutualText "Alpha" "Beta", ["Alpha", "Beta"]) :=
  (c3_mutual_reference_emitted_once "Alpha" "Beta" (by decide) (by decide) (by decide)).1

/-- C7 (counterexample): the uniqueness invariant fails under reentrant
registration.  Parsing `type Page struct \x7b Remote services.Page \x7d`
from the fresh parser state passes the outer duplicate check on the empty
seen-set, field parsing then registers the imported `services.Page` under
its bare declared name "Page", and the outer call appends the local
`Page` anyway without re-checking - leaving two objects named "Page" in
the definition, with no error. -/
theorem c7_reentrant_duplicate_names :
    (parseObjectWithStructField ⟨[], []⟩ localPage remotePage).defObjects.map Object.Name =
      ["Page", "Page"] ∧
    ¬ ((parseObjectWithStructField ⟨[], []⟩ localPage remotePage).defObjects.map
        Object.Name).Nodup := by
  refine ⟨by decide, by decide⟩

end Oto
